import Mathlib

/-!
Verification of the story-generator memory/vector core.

Shallow embedding of the memory/context-assembly engine and vector
retrieval subsystem of the story-generator repository:

* `js/vector.js`   — cosine similarity, top-k search, text chunking, indexing
* `js/memory.js`   — summary/recent prompt blocks, brief extraction,
                     post-generation summary request
* `js/api.js`      — summary input pre-truncation, story-option retry logic
                     (embedded from the current `GeminiAPI` implementation)
* `js/storage.js`  — embedding-record store operations used by the indexer

JS strings are modelled as `List Char` (one element per UTF-16 code unit of
the source strings appearing here; all characters involved are in the BMP).
JS numbers are modelled as real numbers where fractional values occur
(cosine similarity) and as naturals/integers where the source only
manipulates integer quantities; `Math.floor(4000*0.4) = 1600` and
`Math.floor(4000*0.6) = 2400` are exact in IEEE double arithmetic, and the
comparison `breakPoint > start + maxLength / 2` is modelled by the exact
integer comparison `2*breakPoint > 2*start + maxLength`.
-/

/-! ## ECMAScript primitives used by the source -/

/-- ECMAScript index normalisation used by `Array.prototype.slice` and
`String.prototype.slice`: negative indices count from the end (clamped at
0), nonnegative indices are clamped at the length. -/
def jsIndex (len : Nat) (i : Int) : Nat :=
  if i < 0 then ((len : Int) + i).toNat else min i.toNat len

/-- ECMAScript `slice(start, end)` on a list (JS arrays and strings share
these semantics); `none` as `end` means "to the end". -/
def jsSlice (l : List α) (start : Int) (stop : Option Int) : List α :=
  let k := jsIndex l.length start
  let fin := match stop with
    | none => l.length
    | some e => jsIndex l.length e
  (l.take fin).drop k

/-- The ASCII white-space characters recognised by `String.prototype.trim`
(the full ECMAScript set also has further Unicode space code points, none of
which occur in this development). -/
def isJsWhitespace (c : Char) : Bool :=
  c == ' ' || c == '\t' || c == '\n' || c == '\r' || c == '\x0b' || c == '\x0c'

/-- ECMAScript `String.prototype.trim`. -/
def jsTrim (l : List Char) : List Char :=
  ((l.dropWhile isJsWhitespace).reverse.dropWhile isJsWhitespace).reverse

/-- ECMAScript `String.prototype.lastIndexOf(ch, pos)` for a one-character
search string: the largest index `i ≤ pos` at which `ch` occurs, or `-1`. -/
def jsLastIndexOf (l : List Char) (ch : Char) (pos : Nat) : Int :=
  match ((l.take (pos + 1)).reverse.findIdx? (· == ch)) with
  | some j => ((l.take (pos + 1)).length - 1 - j : Nat)
  | none => -1

/-- Consume a leading run of newline characters. -/
def dropLeadingNewlines : List Char → List Char
  | '\n' :: rest => dropLeadingNewlines rest
  | l => l

/-- Worker for `String.prototype.split(/\n\n+/)`: `acc` is the current
segment, reversed.  Fuel-structured: each step consumes at least one
character, so `fuel = length of the remaining text` is always enough, and
with that fuel the `fuel = 0` case coincides with the empty-text case. -/
def splitBlankAux : Nat → List Char → List Char → List (List Char)
  | 0, _, acc => [acc.reverse]
  | fuel + 1, t, acc =>
    match t with
    | [] => [acc.reverse]
    | '\n' :: '\n' :: rest => acc.reverse :: splitBlankAux fuel (dropLeadingNewlines rest) []
    | c :: rest => splitBlankAux fuel rest (c :: acc)

/-- ECMAScript `text.split(/\n\n+/)`: split at each maximal run of two or
more newlines. -/
def jsSplitBlank (t : List Char) : List (List Char) :=
  splitBlankAux t.length t []

/-! ## `js/vector.js` — `VectorSearch.splitIntoParagraphs` (the Chunker) -/

/-- The `end` cut position computed by one iteration of the long-paragraph
loop of `splitIntoParagraphs` (vector.js lines 91–103): start at
`start + maxLength`; if that is still inside the paragraph, move the cut to
just after the last sentence-ending punctuation at or before it, provided
that punctuation lies past the half-length mark (`breakPoint > start +
maxLength / 2`, an exact comparison since `breakPoint` is an integer). -/
def chunkEnd (para : List Char) (maxLength start : Nat) : Nat :=
  let end0 := start + maxLength
  if end0 < para.length then
    let lastPeriod := jsLastIndexOf para '。' end0
    let lastQuestion := jsLastIndexOf para '？' end0
    let lastExclaim := jsLastIndexOf para '！' end0
    let breakPoint := max lastPeriod (max lastQuestion lastExclaim)
    if 2 * breakPoint > 2 * (start : Int) + (maxLength : Int) then
      (breakPoint + 1).toNat
    else end0
  else end0

/-- The long-paragraph loop of `splitIntoParagraphs` (vector.js lines
89–108): push the trimmed slice `[start, end)`, restart `overlap`
characters before the cut.  Fuel-structured; `paragraph length + 1` fuel is
enough whenever `2 * overlap ≤ maxLength` (see `chunkLoop_eq_spans` and the
progress lemmas below); for parameter values violating that bound the
source loop itself need not terminate. -/
def chunkLoop (para : List Char) (maxLength overlap : Nat) : Nat → Nat → List (List Char)
  | _, 0 => []
  | start, fuel + 1 =>
    if start < para.length then
      let e := chunkEnd para maxLength start
      jsTrim (jsSlice para (start : Int) (some (e : Int))) ::
        chunkLoop para maxLength overlap (e - overlap) fuel
    else []

/-- Same loop, recording the `[start, end)` source spans instead of the
trimmed pieces. -/
def chunkLoopSpans (para : List Char) (maxLength overlap : Nat) : Nat → Nat → List (Nat × Nat)
  | _, 0 => []
  | start, fuel + 1 =>
    if start < para.length then
      (start, chunkEnd para maxLength start) ::
        chunkLoopSpans para maxLength overlap (chunkEnd para maxLength start - overlap) fuel
    else []

/-- The list built by `splitIntoParagraphs` before its final length filter
(vector.js lines 78–111): split on blank lines, drop all-whitespace
paragraphs, keep short paragraphs whole (trimmed) and run the chunking loop
on long ones. -/
def splitRaw (text : List Char) (maxLength overlap : Nat) : List (List Char) :=
  if text = [] then []
  else
    ((jsSplitBlank text).filter (fun p => !(jsTrim p).isEmpty)).flatMap fun para =>
      if para.length ≤ maxLength then [jsTrim para]
      else chunkLoop para maxLength overlap 0 (para.length + 1)

/-- `VectorSearch.splitIntoParagraphs(text, maxLength = 500, overlap = 50)`
(vector.js lines 77–113): the raw pieces, with pieces of length `≤ 20`
filtered out (`result.filter(p => p.length > 20)`). -/
def splitIntoParagraphs (text : List Char) (maxLength : Nat := 500) (overlap : Nat := 50) :
    List (List Char) :=
  (splitRaw text maxLength overlap).filter (fun p => 20 < p.length)

/-! ## `js/memory.js` — `MemoryManager` prompt blocks -/

/-- A chapter as used by `MemoryManager`: `summary` is the empty string
until a summary has been derived (the source tests it for truthiness, and
the empty string is the only falsy string). -/
structure Chapter where
  chapterNumber : Nat
  content : List Char
  summary : List Char
deriving DecidableEq, Repr

/-- `MemoryManager.extractBrief(content)` (memory.js lines 225–234): the
first 200 characters of the content, with an ellipsis marker appended when
the content is longer; a fixed placeholder when there is no content. -/
def extractBrief (content : List Char) : List Char :=
  if content = [] then ("（無內容）").data
  else
    let brief := jsSlice content 0 (some 200)
    if 200 < content.length then brief ++ ("...").data else brief

/-- The per-chapter entry of the summary block:
`` `第${ch.chapterNumber}章：${summary}` `` with the stored summary, or
`extractBrief` of the content when no summary exists yet. -/
def summaryEntry (ch : Chapter) : List Char :=
  ("第").data ++ (toString ch.chapterNumber).data ++ ("章：").data ++
    (if ch.summary = [] then extractBrief ch.content else ch.summary)

/-- `MemoryManager.buildSummarySection(chapters)` (memory.js lines
174–186), with the instance field `recentChapterCount` (default 2) as the
parameter `recentChapterCount`: empty when there are at most
`recentChapterCount` chapters, otherwise the entries for
`chapters.slice(0, -recentChapterCount)` joined by blank lines. -/
def buildSummarySection (chapters : List Chapter) (recentChapterCount : Nat := 2) : List Char :=
  if chapters.length ≤ recentChapterCount then []
  else
    List.intercalate ("\n\n").data
      ((jsSlice chapters 0 (some (-(recentChapterCount : Int)))).map summaryEntry)

/-- The content of one chapter as rendered in the recent block (memory.js
lines 201–203): contents longer than 3000 characters are replaced by an
ellipsis marker followed by their last 3000 characters
(`'...' + ch.content.slice(-3000)`). -/
def recentChapterText (content : List Char) : List Char :=
  if 3000 < content.length then ("...").data ++ jsSlice content (-3000) none
  else content

/-- The per-chapter entry of the recent block:
`` `【第${ch.chapterNumber}章】\n${content}` ``. -/
def recentEntry (ch : Chapter) : List Char :=
  ("【第").data ++ (toString ch.chapterNumber).data ++ ("章】\n").data ++
    recentChapterText ch.content

/-- `MemoryManager.buildRecentSection(chapters)` (memory.js lines 191–207):
the entries for `chapters.slice(-recentChapterCount)` joined by a divider. -/
def buildRecentSection (chapters : List Chapter) (recentChapterCount : Nat := 2) : List Char :=
  if chapters = [] then []
  else
    List.intercalate ("\n\n---\n\n").data
      ((jsSlice chapters (-(recentChapterCount : Int)) none).map recentEntry)

/-! ## `js/api.js` — `GeminiAPI.generateSummary` input pre-truncation -/

/-- The elision marker inserted between the head and tail parts when a
chapter is pre-truncated for summarization. -/
def elisionMarker : List Char := ("\n\n[...中間內容省略...]\n\n").data

/-- The `processedContent` computed by `GeminiAPI.generateSummary(content)`
(api.js lines 258–270): contents longer than `maxContentLength = 4000`
keep their first `Math.floor(4000*0.4) = 1600` and last
`Math.floor(4000*0.6) = 2400` characters around the elision marker (both
floating-point products round to those exact integers). -/
def generateSummaryInput (content : List Char) : List Char :=
  if 4000 < content.length then
    jsSlice content 0 (some 1600) ++ elisionMarker ++ jsSlice content (-2400) none
  else content

/-- The summarization request issued by
`MemoryManager.processNewChapter(projectId, chapter)` (memory.js lines
241–256): a summary is requested exactly when the chapter content is
longer than 300 characters, and the text the summarization capability
actually receives as chapter content is `generateSummaryInput` of it. -/
def processNewChapterSummaryRequest (content : List Char) : Option (List Char) :=
  if 300 < content.length then some (generateSummaryInput content) else none

/-! ## `js/api.js` — `GeminiAPI.generateStoryOptions` retry logic -/

/-- The fixed default options returned by `GeminiAPI.getDefaultOptions()`. -/
def getDefaultOptions : List (List Char) :=
  [("繼續推進主線劇情，揭開更多謎團").data,
   ("深入描寫角色之間的互動與情感").data,
   ("出現意外的敵人或危機").data,
   ("輕鬆的日常場景，角色休息調整").data]

/-- The outcome of one generate-and-parse attempt inside
`generateStoryOptions`.  The text-generation capability and `JSON.parse`
are external (spec §6: abstract capabilities), so one attempt is abstracted
to its outcome: the API call threw, no JSON array could be extracted by any
of the three parse methods, or an array was extracted whose elements are
strings (`some s`) or non-strings (`none`). -/
inductive AttemptOutcome where
  | apiError
  | parseFail
  | parsed (arr : List (Option (List Char)))
deriving DecidableEq, Repr

/-- The validation filter of `generateStoryOptions` (api.js line 372):
`options.filter(opt => typeof opt === 'string' && opt.trim().length > 0)`. -/
def validOptions (arr : List (Option (List Char))) : List (List Char) :=
  arr.filterMap fun x =>
    match x with
    | some s => if (jsTrim s).isEmpty then none else some s
    | none => none

/-- An attempt from which no usable options list results (an API error, a
parse failure, or an extracted array with no valid string entry — the
source treats all of these by retrying). -/
def attemptFails : AttemptOutcome → Prop
  | .apiError => True
  | .parseFail => True
  | .parsed arr => validOptions arr = []

instance : DecidablePred attemptFails := fun a => by
  cases a <;> simp only [attemptFails] <;> infer_instance

/-- `GeminiAPI.generateStoryOptions(..., retryCount = 0)` (api.js lines
301–408), as a function of the per-attempt outcomes: on a usable options
list, pad it to four entries with the defaults
(`while (validOptions.length < 4) validOptions.push(defaults[validOptions.length])`)
and return the first four; on any failing attempt, retry once
(`retryCount < 1`) and otherwise return the defaults. -/
def generateStoryOptions (attempts : Nat → AttemptOutcome) (retryCount : Nat := 0) :
    List (List Char) :=
  match attempts retryCount with
  | .parsed arr =>
    let valid := validOptions arr
    if valid ≠ [] then (valid ++ getDefaultOptions.drop valid.length).take 4
    else if h : retryCount < 1 then generateStoryOptions attempts (retryCount + 1)
    else getDefaultOptions
  | .parseFail =>
    if h : retryCount < 1 then generateStoryOptions attempts (retryCount + 1)
    else getDefaultOptions
  | .apiError =>
    if h : retryCount < 1 then generateStoryOptions attempts (retryCount + 1)
    else getDefaultOptions
termination_by 1 - retryCount

/-! ## `js/vector.js` — cosine similarity and top-k search

JS floating-point numbers are idealised as real numbers, so `Math.sqrt` is
`Real.sqrt` and the literal `0.3` is `3/10`; these definitions are
consequently noncomputable, and concrete instances are evaluated through
`simp`/`norm_num` rather than kernel reduction. -/

/-- The loop of `cosineSimilarity` accumulating `dotProduct` (vector.js
lines 27–31); with equal-length vectors the accumulators `normA` and
`normB` of the same loop are `dotProduct a a` and `dotProduct b b`. -/
noncomputable def dotProduct : List ℝ → List ℝ → ℝ
  | a :: as, b :: bs => a * b + dotProduct as bs
  | _, _ => 0

/-- `VectorSearch.cosineSimilarity(a, b)` (vector.js lines 18–41): `0` for
mismatched lengths or empty vectors, `0` when either norm is zero, and
`dot(a,b) / (‖a‖·‖b‖)` otherwise.  (The `!a || !b` null guard of the
source has no counterpart: a `List ℝ` is never null.) -/
noncomputable def cosineSimilarity (a b : List ℝ) : ℝ :=
  if a.length ≠ b.length ∨ a.length = 0 then 0
  else
    let normA := Real.sqrt (dotProduct a a)
    let normB := Real.sqrt (dotProduct b b)
    if normA = 0 ∨ normB = 0 then 0
    else dotProduct a b / (normA * normB)

/-- An embedding record as stored by `Storage.createEmbedding`
(storage.js lines 375–393): `vector` is `none` when the field is absent
(falsy in the source's `emb.vector &&` guard).  The store-generated `id`
and `createdAt` fields play no role in any claim and are omitted. -/
structure EmbeddingRecord where
  projectId : Nat
  chapterId : Nat
  paragraphIndex : Nat
  text : List Char
  vector : Option (List ℝ)

/-- The filter `emb => emb.vector && emb.vector.length > 0` of `search`
(vector.js line 58). -/
def hasVector (e : EmbeddingRecord) : Bool :=
  match e.vector with
  | some v => !v.isEmpty
  | none => false

/-- A search result `{...emb, similarity}` (vector.js lines 59–62). -/
structure ScoredRecord where
  record : EmbeddingRecord
  similarity : ℝ

/-- The scored candidate list of `search`: candidates without a (non-empty)
vector dropped, each remaining one paired with its cosine similarity to the
query, and results below the threshold dropped (vector.js lines 57–63). -/
noncomputable def scoredCandidates (queryVector : List ℝ) (embeddings : List EmbeddingRecord)
    (threshold : ℝ) : List ScoredRecord :=
  (((embeddings.filter hasVector).map fun e =>
      ScoredRecord.mk e (cosineSimilarity queryVector (e.vector.getD []))).filter
    fun r => threshold ≤ r.similarity)

/-- The comparator `(a, b) => b.similarity - a.similarity` (vector.js line
64) as the total order it induces: `a` may precede `b` iff
`b.similarity ≤ a.similarity`.  `Array.prototype.sort` is a stable sort
(ECMAScript 2019), modelled by `List.mergeSort`. -/
noncomputable def descBySimilarity (a b : ScoredRecord) : Bool :=
  decide (b.similarity ≤ a.similarity)

/-- `VectorSearch.search(queryVector, embeddings, topK = 5, threshold = 0.3)`
(vector.js lines 51–68).  The two leading arguments are `Option`s so that
the source's `!queryVector || !embeddings` null guards are represented. -/
noncomputable def search (queryVector : Option (List ℝ))
    (embeddings : Option (List EmbeddingRecord)) (topK : Nat := 5)
    (threshold : ℝ := 3 / 10) : List ScoredRecord :=
  match queryVector, embeddings with
  | some q, some embs =>
    if q.length = 0 ∨ embs.length = 0 then []
    else ((scoredCandidates q embs threshold).mergeSort descBySimilarity).take topK
  | _, _ => []

/-! ## `js/vector.js` — `VectorSearch.indexChapter` and the embedding store

The external embedding capability is abstracted as
`gen : List Char → Option (List ℝ)`: `none` when the call for that chunk
threw (the per-chunk `try/catch` then skips the chunk), otherwise the
returned vector. -/

/-- `Storage.deleteEmbeddingsByChapter(chapterId)` (storage.js lines
412–430): remove every record of the chapter from the store. -/
def deleteEmbeddingsByChapter (chapterId : Nat) (store : List EmbeddingRecord) :
    List EmbeddingRecord :=
  store.filter fun r => r.chapterId ≠ chapterId

/-- `VectorSearch.indexChapter(projectId, chapterId, content)` (vector.js
lines 121–148) acting on the embedding store: chunk the content, delete the
chapter's old records, then for each chunk whose embedding call succeeds
with a non-empty vector, append a record via `Storage.createEmbedding`. -/
def indexChapter (gen : List Char → Option (List ℝ)) (projectId chapterId : Nat)
    (content : List Char) (store : List EmbeddingRecord) : List EmbeddingRecord :=
  let paragraphs := splitIntoParagraphs content
  let cleared := deleteEmbeddingsByChapter chapterId store
  paragraphs.enum.foldl
    (fun st iText =>
      match gen iText.2 with
      | some v =>
        if 0 < v.length then
          st ++ [EmbeddingRecord.mk projectId chapterId iText.1 iText.2 (some v)]
        else st
      | none => st)
    cleared

/-- The records freshly inserted by one `indexChapter` run: one record per
chunk whose embedding call succeeded with a non-empty vector, carrying the
chunk's index and text. -/
def indexedRecords (gen : List Char → Option (List ℝ)) (projectId chapterId : Nat)
    (content : List Char) : List EmbeddingRecord :=
  (splitIntoParagraphs content).enum.filterMap fun iText =>
    match gen iText.2 with
    | some v =>
      if 0 < v.length then
        some (EmbeddingRecord.mk projectId chapterId iText.1 iText.2 (some v))
      else none
    | none => none

/-! ## Source spans of the chunker's output

The same chunking computation, instrumented to record for every emitted
piece the span `[start, end)` of the original text it was cut from (before
trimming).  `splitSpans_pieces` below proves that projecting the pieces out
of this instrumented pipeline yields exactly `splitIntoParagraphs`. -/

/-- Length of the leading newline run. -/
def countLeadingNewlines : List Char → Nat
  | '\n' :: rest => countLeadingNewlines rest + 1
  | _ => 0

/-- `splitBlankAux`, additionally carrying the absolute start offset of
each segment in the original text. -/
def splitBlankOffAux : Nat → List Char → Nat → List Char → List (Nat × List Char)
  | 0, _, segStart, acc => [(segStart, acc.reverse)]
  | fuel + 1, t, segStart, acc =>
    match t with
    | [] => [(segStart, acc.reverse)]
    | '\n' :: '\n' :: rest =>
      (segStart, acc.reverse) ::
        splitBlankOffAux fuel (dropLeadingNewlines rest)
          (segStart + acc.length + 2 + countLeadingNewlines rest) []
    | c :: rest => splitBlankOffAux fuel rest segStart (c :: acc)

/-- `jsSplitBlank` with segment offsets. -/
def jsSplitBlankOff (t : List Char) : List (Nat × List Char) :=
  splitBlankOffAux t.length t 0 []

/-- The chunking pipeline (`splitIntoParagraphs` including its final length
filter), producing for every emitted chunk the pair of its source span in
the original text (clamped to the text, since the last cut position may lie
beyond the paragraph end) and the chunk itself. -/
def splitSpans (text : List Char) (maxLength overlap : Nat) :
    List ((Nat × Nat) × List Char) :=
  if text = [] then []
  else
    (((jsSplitBlankOff text).filter (fun p => !(jsTrim p.2).isEmpty)).flatMap fun op =>
      if op.2.length ≤ maxLength then [((op.1, op.1 + op.2.length), jsTrim op.2)]
      else (chunkLoopSpans op.2 maxLength overlap 0 (op.2.length + 1)).map fun se =>
        ((op.1 + se.1, op.1 + min se.2 op.2.length),
          jsTrim (jsSlice op.2 (se.1 : Int) (some (se.2 : Int))))).filter
      fun sp => 20 < sp.2.length

/-- Formalisation of the coverage sentence of the spec (§8), the property
claim C8 asserts of the code: a position is covered when it lies in the
source span of some returned chunk, and "no uncovered gap longer than
`overlap`" says every window of the text longer than `overlap` characters
contains a covered position. -/
def coverageClaimSpec (text : List Char) (maxLength overlap : Nat) : Prop :=
  ∀ i j : Nat, j ≤ text.length → i + overlap < j →
    ∃ p, i ≤ p ∧ p < j ∧
      ∃ sp ∈ splitSpans text maxLength overlap, sp.1.1 ≤ p ∧ p < sp.1.2

/-! ## Helper lemmas: ECMAScript slice arithmetic -/

theorem jsIndex_nonneg (len : Nat) (n : Int) (hn : 0 ≤ n) :
    jsIndex len n = min n.toNat len := by
  unfold jsIndex
  rw [if_neg (by omega)]

theorem jsIndex_neg (len : Nat) (n : Int) (hn : n < 0) :
    jsIndex len n = len - (-n).toNat := by
  unfold jsIndex
  rw [if_pos hn]
  omega

theorem take_min_length (l : List α) (n : Nat) : l.take (min n l.length) = l.take n := by
  rcases le_total n l.length with h | h
  · rw [min_eq_left h]
  · rw [min_eq_right h, List.take_length, List.take_of_length_le h]

theorem jsSlice_nonneg_stop (l : List α) (n : Int) (hn : 0 ≤ n) :
    jsSlice l 0 (some n) = l.take n.toNat := by
  show (l.take (jsIndex l.length n)).drop (jsIndex l.length 0) = _
  rw [jsIndex_nonneg _ _ le_rfl, jsIndex_nonneg _ _ hn]
  simp only [Int.toNat_zero, Nat.zero_min, List.drop_zero]
  exact take_min_length l n.toNat

theorem jsSlice_neg_stop (l : List α) (n : Int) (hn : n < 0) :
    jsSlice l 0 (some n) = l.take (l.length - (-n).toNat) := by
  show (l.take (jsIndex l.length n)).drop (jsIndex l.length 0) = _
  rw [jsIndex_nonneg _ _ le_rfl, jsIndex_neg _ _ hn]
  simp

theorem jsSlice_neg_start (l : List α) (n : Int) (hn : n < 0) :
    jsSlice l n none = l.drop (l.length - (-n).toNat) := by
  show (l.take l.length).drop (jsIndex l.length n) = _
  rw [jsIndex_neg _ _ hn, List.take_length]

/-! ## Claim C3 — summarization input pre-truncation -/

/-- Claim C3: when `processNewChapter` requests a summary (content longer
than 300 characters) and the content exceeds the maximum length 4000, the
chapter text submitted to the summarization capability is the first 1600
characters (40% of the maximum) plus the last 2400 characters (60% of the
maximum) of the content joined by the elision marker; for content at most
300 characters no summary is requested; and the submitted text is bounded
by `4000 + 18` characters for every content length. -/
theorem summary_input_truncation :
    (∀ content : List Char, 300 < content.length → 4000 < content.length →
      processNewChapterSummaryRequest content =
        some (content.take 1600 ++ elisionMarker ++ content.drop (content.length - 2400)))
    ∧ (∀ content : List Char, content.length ≤ 300 →
        processNewChapterSummaryRequest content = none)
    ∧ (∀ content : List Char,
        (generateSummaryInput content).length ≤ 4000 + elisionMarker.length)
    ∧ elisionMarker.length = 18 := by
  have hmark : elisionMarker.length = 18 := by decide
  refine ⟨?_, ?_, ?_, hmark⟩
  · intro content h300 h4000
    unfold processNewChapterSummaryRequest generateSummaryInput
    rw [if_pos h300, if_pos h4000,
      jsSlice_nonneg_stop content 1600 (by omega),
      jsSlice_neg_start content (-2400) (by omega)]
    rfl
  · intro content h300
    unfold processNewChapterSummaryRequest
    rw [if_neg (by omega)]
  · intro content
    unfold generateSummaryInput
    split
    · rw [jsSlice_nonneg_stop content 1600 (by omega),
        jsSlice_neg_start content (-2400) (by omega)]
      simp only [List.length_append, List.length_take, List.length_drop, hmark]
      omega
    · simp only [not_lt] at *
      omega

/-- Witness for C3 at a concrete 5000-character content: the submitted text
is the first 1600 and last 2400 characters around the elision marker. -/
theorem summary_input_truncation_witness :
    processNewChapterSummaryRequest (List.replicate 5000 'a') =
      some (List.replicate 1600 'a' ++ elisionMarker ++ List.replicate 2400 'a') := by
  have h := summary_input_truncation.1 (List.replicate 5000 'a')
    (by simp only [List.length_replicate]; norm_num)
    (by simp only [List.length_replicate]; norm_num)
  rw [h]
  simp only [List.length_replicate, List.take_replicate, List.drop_replicate]
  norm_num

/-! ## Claim C6 — recent-block truncation -/

set_option maxRecDepth 4000 in
/-- Claim C6: in the recent block, a chapter content longer than 3000
characters appears as exactly its last 3000 characters prefixed with the
ellipsis marker (3003 characters in total), content of length at most 3000
appears in full, and the recent block is the join of the entries of the
last `recentChapterCount` chapters rendered exactly that way. -/
theorem recent_block_truncation (chapters : List Chapter) (k : Nat) (hk : 0 < k) :
    (∀ c : List Char, 3000 < c.length →
      recentChapterText c = ("...").data ++ c.drop (c.length - 3000)
        ∧ (recentChapterText c).length = 3003)
    ∧ (∀ c : List Char, c.length ≤ 3000 → recentChapterText c = c)
    ∧ (chapters ≠ [] →
        buildRecentSection chapters k =
          List.intercalate (("\n\n---\n\n").data)
            ((chapters.drop (chapters.length - k)).map fun ch =>
              ("【第").data ++ (toString ch.chapterNumber).data ++ ("章】\n").data ++
                (if 3000 < ch.content.length then
                  ("...").data ++ ch.content.drop (ch.content.length - 3000)
                 else ch.content))) := by
  have htrunc : ∀ c : List Char, 3000 < c.length →
      recentChapterText c = ("...").data ++ c.drop (c.length - 3000) := by
    intro c hc
    unfold recentChapterText
    rw [if_pos hc, jsSlice_neg_start c (-3000) (by omega)]
    rfl
  refine ⟨fun c hc => ⟨htrunc c hc, ?_⟩, fun c hc => ?_, fun hne => ?_⟩
  · rw [htrunc c hc]
    simp only [List.length_append, List.length_drop, List.length_cons, List.length_nil]
    omega
  · unfold recentChapterText
    rw [if_neg (by omega)]
  · unfold buildRecentSection
    rw [if_neg hne, jsSlice_neg_start chapters (-(k : Int)) (by omega),
      show ((-(-(k : Int))).toNat) = k from by omega]
    refine congrArg _ ?_
    apply List.map_congr_left
    intro ch _
    unfold recentEntry recentChapterText
    split
    · rw [jsSlice_neg_start ch.content (-3000) (by omega)]
      rfl
    · rfl

/-- Witness for C6: a chapter content of length 5000 appears as exactly its
last 3000 characters prefixed with the ellipsis marker. -/
theorem recent_block_truncation_witness :
    recentChapterText (List.replicate 5000 'x') = ("...").data ++ List.replicate 3000 'x'
      ∧ (recentChapterText (List.replicate 5000 'x')).length = 3003 := by
  obtain ⟨h1, h2⟩ := (recent_block_truncation [] 1 one_pos).1 (List.replicate 5000 'x')
    (by simp only [List.length_replicate]; norm_num)
  refine ⟨?_, h2⟩
  rw [h1]
  simp only [List.length_replicate, List.drop_replicate]

/-! ## Claim C2 — summary-block / recent-block chapter selection -/

set_option maxRecDepth 4000 in
/-- Claim C2: with the chapters given in ascending `chapterNumber` order,
the summary block is empty when there are at most `recentChapterCount`
chapters; otherwise it lists exactly all chapters except the most recent
`recentChapterCount`, each rendered as its stored summary or — when no
summary exists — the first 200 characters of its content followed by an
ellipsis marker exactly when the content is longer than 200; and the recent
block lists exactly the most recent `recentChapterCount` chapters. -/
theorem summary_block_selection (chapters : List Chapter) (k : Nat) (hk : 0 < k)
    (_hsorted : chapters.Pairwise fun c₁ c₂ => c₁.chapterNumber ≤ c₂.chapterNumber) :
    (chapters.length ≤ k → buildSummarySection chapters k = [])
    ∧ (k < chapters.length →
        buildSummarySection chapters k =
          List.intercalate (("\n\n").data)
            ((chapters.take (chapters.length - k)).map fun ch =>
              ("第").data ++ (toString ch.chapterNumber).data ++ ("章：").data ++
                (if ch.summary = [] then
                  (if ch.content = [] then ("（無內容）").data
                   else ch.content.take 200 ++
                     (if 200 < ch.content.length then ("...").data else []))
                 else ch.summary)))
    ∧ (chapters ≠ [] →
        buildRecentSection chapters k =
          List.intercalate (("\n\n---\n\n").data)
            ((chapters.drop (chapters.length - k)).map recentEntry)) := by
  refine ⟨fun hle => ?_, fun hlt => ?_, fun hne => ?_⟩
  · unfold buildSummarySection
    rw [if_pos hle]
  · unfold buildSummarySection
    rw [if_neg (by omega), jsSlice_neg_stop chapters (-(k : Int)) (by omega),
      show ((-(-(k : Int))).toNat) = k from by omega]
    refine congrArg _ ?_
    apply List.map_congr_left
    intro ch _
    unfold summaryEntry extractBrief
    refine congrArg _ ?_
    split
    · split
      · rfl
      · rw [jsSlice_nonneg_stop ch.content 200 (by omega)]
        show (if 200 < ch.content.length then ch.content.take (Int.toNat 200) ++ ("...").data
          else ch.content.take (Int.toNat 200)) = _
        split_ifs
        · rfl
        · exact (List.append_nil _).symm
    · rfl
  · unfold buildRecentSection
    rw [if_neg hne, jsSlice_neg_start chapters (-(k : Int)) (by omega),
      show ((-(-(k : Int))).toNat) = k from by omega]

set_option maxRecDepth 8000 in
/-- Witness for C2: with `recentChapterCount = 2` and five chapters
numbered 1–5, the summary block renders exactly chapters 1–3 (chapter 1 by
its stored summary, chapter 2 by its short content verbatim, chapter 3 by
its first 200 characters plus the ellipsis marker) and the recent block
renders exactly chapters 4 and 5. -/
theorem summary_block_selection_witness :
    buildSummarySection
        [⟨1, ("one-content").data, ("summary-1").data⟩,
         ⟨2, ("bb").data, []⟩,
         ⟨3, List.replicate 230 'c', []⟩,
         ⟨4, ("dddd").data, []⟩,
         ⟨5, ("eeee").data, []⟩] 2 =
      ("第1章：summary-1\n\n第2章：bb\n\n第3章：").data ++
        List.replicate 200 'c' ++ ("...").data
    ∧ buildRecentSection
        [⟨1, ("one-content").data, ("summary-1").data⟩,
         ⟨2, ("bb").data, []⟩,
         ⟨3, List.replicate 230 'c', []⟩,
         ⟨4, ("dddd").data, []⟩,
         ⟨5, ("eeee").data, []⟩] 2 =
      ("【第4章】\ndddd\n\n---\n\n【第5章】\neeee").data := by
  have h := summary_block_selection
    [⟨1, ("one-content").data, ("summary-1").data⟩,
     ⟨2, ("bb").data, []⟩,
     ⟨3, List.replicate 230 'c', []⟩,
     ⟨4, ("dddd").data, []⟩,
     ⟨5, ("eeee").data, []⟩] 2 (by norm_num) (by decide)
  refine ⟨?_, ?_⟩
  · rw [h.2.1 (by decide)]
    decide
  · rw [h.2.2 (by decide)]
    decide

/-! ## Claim C5 — re-indexing idempotence -/

theorem indexChapter_foldl_eq (gen : List Char → Option (List ℝ)) (projectId chapterId : Nat)
    (l : List (Nat × List Char)) (init : List EmbeddingRecord) :
    l.foldl
        (fun st iText =>
          match gen iText.2 with
          | some v =>
            if 0 < v.length then
              st ++ [EmbeddingRecord.mk projectId chapterId iText.1 iText.2 (some v)]
            else st
          | none => st)
        init
      = init ++ l.filterMap fun iText =>
          match gen iText.2 with
          | some v =>
            if 0 < v.length then
              some (EmbeddingRecord.mk projectId chapterId iText.1 iText.2 (some v))
            else none
          | none => none := by
  induction l generalizing init with
  | nil => simp
  | cons x xs ih =>
    simp only [List.foldl_cons, List.filterMap_cons]
    cases hx : gen x.2 with
    | none =>
      dsimp only
      exact ih init
    | some v =>
      dsimp only
      by_cases hv : 0 < v.length
      · rw [if_pos hv, if_pos hv, ih, List.append_assoc]
        rfl
      · rw [if_neg hv, if_neg hv, ih]

theorem indexChapter_decomposition (gen : List Char → Option (List ℝ))
    (projectId chapterId : Nat) (content : List Char) (store : List EmbeddingRecord) :
    indexChapter gen projectId chapterId content store
      = deleteEmbeddingsByChapter chapterId store
          ++ indexedRecords gen projectId chapterId content := by
  unfold indexChapter indexedRecords
  exact indexChapter_foldl_eq gen projectId chapterId _ _

theorem indexedRecords_chapterId (gen : List Char → Option (List ℝ))
    (projectId chapterId : Nat) (content : List Char) :
    ∀ r ∈ indexedRecords gen projectId chapterId content, r.chapterId = chapterId := by
  intro r hr
  unfold indexedRecords at hr
  obtain ⟨iText, -, hmk⟩ := List.mem_filterMap.mp hr
  rcases hgen : gen iText.2 with - | v <;> rw [hgen] at hmk <;> dsimp only at hmk
  · cases hmk
  · by_cases hv : 0 < v.length
    · rw [if_pos hv, Option.some_inj] at hmk
      rw [← hmk]
    · rw [if_neg hv] at hmk
      cases hmk

/-- Claim C5: re-running `indexChapter` for the same chapter with the same
content leaves the embedding store — and in particular the number of
records for that chapter — exactly as after a single run, because every run
first deletes all records for the `chapterId` and only then inserts: the
resulting store is always the cleared prior store followed by the freshly
indexed records, so the chapter's records after a run do not depend on the
prior store at all. -/
theorem indexChapter_idempotent (gen : List Char → Option (List ℝ))
    (projectId chapterId : Nat) (content : List Char) (store : List EmbeddingRecord) :
    indexChapter gen projectId chapterId content
        (indexChapter gen projectId chapterId content store)
      = indexChapter gen projectId chapterId content store
    ∧ (indexChapter gen projectId chapterId content
          (indexChapter gen projectId chapterId content store)).countP
            (fun r => r.chapterId == chapterId)
        = (indexChapter gen projectId chapterId content store).countP
            (fun r => r.chapterId == chapterId)
    ∧ indexChapter gen projectId chapterId content store
        = deleteEmbeddingsByChapter chapterId store
            ++ indexedRecords gen projectId chapterId content
    ∧ (indexChapter gen projectId chapterId content store).filter
          (fun r => r.chapterId == chapterId)
        = indexedRecords gen projectId chapterId content := by
  have hdec := indexChapter_decomposition gen projectId chapterId content
  have hfresh := indexedRecords_chapterId gen projectId chapterId content
  have hclear : deleteEmbeddingsByChapter chapterId
        (deleteEmbeddingsByChapter chapterId store
          ++ indexedRecords gen projectId chapterId content)
      = deleteEmbeddingsByChapter chapterId store := by
    unfold deleteEmbeddingsByChapter
    rw [List.filter_append, List.filter_filter]
    have h1 : (store.filter fun r =>
          decide (r.chapterId ≠ chapterId) && decide (r.chapterId ≠ chapterId))
        = store.filter fun r => r.chapterId ≠ chapterId := by
      apply List.filter_congr
      intro r _
      cases h : decide (r.chapterId ≠ chapterId) <;> simp [h]
    have h2 : ((indexedRecords gen projectId chapterId content).filter
        fun r => r.chapterId ≠ chapterId) = [] := by
      rw [List.filter_eq_nil_iff]
      intro r hr
      simp [hfresh r hr]
    rw [h1, h2, List.append_nil]
  have hmain : indexChapter gen projectId chapterId content
      (indexChapter gen projectId chapterId content store)
        = indexChapter gen projectId chapterId content store := by
    rw [hdec store, hdec (deleteEmbeddingsByChapter chapterId store
      ++ indexedRecords gen projectId chapterId content), hclear]
  have hfilter : (indexChapter gen projectId chapterId content store).filter
      (fun r => r.chapterId == chapterId) = indexedRecords gen projectId chapterId content := by
    rw [hdec store, List.filter_append]
    have h1 : (deleteEmbeddingsByChapter chapterId store).filter
        (fun r => r.chapterId == chapterId) = [] := by
      unfold deleteEmbeddingsByChapter
      rw [List.filter_filter, List.filter_eq_nil_iff]
      intro r _
      by_cases h : r.chapterId = chapterId <;> simp [h]
    have h2 : (indexedRecords gen projectId chapterId content).filter
        (fun r => r.chapterId == chapterId) = indexedRecords gen projectId chapterId content := by
      rw [List.filter_eq_self]
      intro r hr
      simp [hfresh r hr]
    rw [h1, h2, List.nil_append]
  exact ⟨hmain, by rw [hmain], hdec store, hfilter⟩

/-! ## Claim C4 — story-option parse failure: one retry, then defaults -/

theorem generateStoryOptions_fail_stop (attempts : Nat → AttemptOutcome) (retryCount : Nat)
    (hfail : attemptFails (attempts retryCount)) (hrc : ¬ retryCount < 1) :
    generateStoryOptions attempts retryCount = getDefaultOptions := by
  rw [generateStoryOptions]
  rcases h : attempts retryCount with - | - | arr <;> rw [h] at hfail <;> dsimp only
  · rw [dif_neg hrc]
  · rw [dif_neg hrc]
  · rw [if_neg (by simpa [attemptFails] using hfail), dif_neg hrc]

theorem generateStoryOptions_fail_retry (attempts : Nat → AttemptOutcome)
    (hfail : attemptFails (attempts 0)) :
    generateStoryOptions attempts = generateStoryOptions attempts 1 := by
  rw [generateStoryOptions]
  rcases h : attempts 0 with - | - | arr <;> rw [h] at hfail <;> dsimp only
  · rw [dif_pos (by omega)]
  · rw [dif_pos (by omega)]
  · rw [if_neg (by simpa [attemptFails] using hfail), dif_pos (by omega)]

theorem generateStoryOptions_ok (attempts : Nat → AttemptOutcome) (retryCount : Nat)
    (arr : List (Option (List Char))) (h : attempts retryCount = .parsed arr)
    (hv : validOptions arr ≠ []) :
    generateStoryOptions attempts retryCount
      = (validOptions arr ++ getDefaultOptions.drop (validOptions arr).length).take 4 := by
  rw [generateStoryOptions, h]
  dsimp only
  rw [if_pos hv]

theorem attemptOutcome_classify (o : AttemptOutcome) :
    attemptFails o ∨ ∃ arr, o = .parsed arr ∧ validOptions arr ≠ [] := by
  rcases o with - | - | arr
  · exact Or.inl trivial
  · exact Or.inl trivial
  · by_cases hv : validOptions arr = []
    · exact Or.inl hv
    · exact Or.inr ⟨arr, rfl, hv⟩

theorem generateStoryOptions_length (attempts : Nat → AttemptOutcome) (retryCount : Nat) :
    (generateStoryOptions attempts retryCount).length = 4 := by
  have hok : ∀ (a : Nat → AttemptOutcome) (rc : Nat) (arr : List (Option (List Char))),
      a rc = .parsed arr → validOptions arr ≠ [] →
      (generateStoryOptions a rc).length = 4 := by
    intro a rc arr h hv
    rw [generateStoryOptions_ok a rc arr h hv]
    simp only [List.length_take, List.length_append, List.length_drop]
    have : getDefaultOptions.length = 4 := by decide
    omega
  have hstop : ∀ (a : Nat → AttemptOutcome) (rc : Nat), ¬ rc < 1 →
      (generateStoryOptions a rc).length = 4 := by
    intro a rc hrc
    rcases attemptOutcome_classify (a rc) with hfail | ⟨arr, h, hv⟩
    · rw [generateStoryOptions_fail_stop a rc hfail hrc]
      decide
    · exact hok a rc arr h hv
  by_cases hrc : retryCount < 1
  · have hrc0 : retryCount = 0 := by omega
    subst hrc0
    rcases attemptOutcome_classify (attempts 0) with hfail | ⟨arr, h, hv⟩
    · rw [generateStoryOptions_fail_retry attempts hfail]
      exact hstop attempts 1 (by omega)
    · exact hok attempts 0 arr h hv
  · exact hstop attempts retryCount hrc

/-- Claim C4: when the options list fails to parse (or the generation call
fails, or the parsed array holds no valid option), `generateStoryOptions`
retries exactly once — the result depends only on the first two attempts —
and a second failure yields the fixed default options; a successful retry
yields its parsed options padded with defaults to four; and every execution
returns a list of exactly four options, never a propagated parse failure. -/
theorem story_options_retry_then_defaults :
    (∀ attempts : Nat → AttemptOutcome,
      attemptFails (attempts 0) → attemptFails (attempts 1) →
        generateStoryOptions attempts = getDefaultOptions)
    ∧ (∀ (attempts : Nat → AttemptOutcome) (arr : List (Option (List Char))),
        attemptFails (attempts 0) → attempts 1 = .parsed arr → validOptions arr ≠ [] →
          generateStoryOptions attempts
            = (validOptions arr ++ getDefaultOptions.drop (validOptions arr).length).take 4)
    ∧ (∀ a b : Nat → AttemptOutcome, a 0 = b 0 → a 1 = b 1 →
        generateStoryOptions a = generateStoryOptions b)
    ∧ (∀ (attempts : Nat → AttemptOutcome) (retryCount : Nat),
        (generateStoryOptions attempts retryCount).length = 4) := by
  refine ⟨fun attempts h0 h1 => ?_, fun attempts arr h0 h1 hv => ?_, fun a b h0 h1 => ?_,
    generateStoryOptions_length⟩
  · rw [generateStoryOptions_fail_retry attempts h0,
      generateStoryOptions_fail_stop attempts 1 h1 (by omega)]
  · rw [generateStoryOptions_fail_retry attempts h0,
      generateStoryOptions_ok attempts 1 arr h1 hv]
  · rcases attemptOutcome_classify (a 0) with hfail | ⟨arr, h, hv⟩
    · rw [generateStoryOptions_fail_retry a hfail,
        generateStoryOptions_fail_retry b (h0 ▸ hfail)]
      rcases attemptOutcome_classify (a 1) with hfail1 | ⟨arr, h, hv⟩
      · rw [generateStoryOptions_fail_stop a 1 hfail1 (by omega),
          generateStoryOptions_fail_stop b 1 (h1 ▸ hfail1) (by omega)]
      · rw [generateStoryOptions_ok a 1 arr h hv,
          generateStoryOptions_ok b 1 arr (h1 ▸ h) hv]
    · rw [generateStoryOptions_ok a 0 arr h hv,
        generateStoryOptions_ok b 0 arr (h0 ▸ h) hv]

/-- Witness for C4: with both attempts failing to parse, the operation
returns exactly the default options. -/
theorem story_options_retry_then_defaults_witness :
    generateStoryOptions (fun _ => AttemptOutcome.parseFail) = getDefaultOptions :=
  story_options_retry_then_defaults.1 (fun _ => AttemptOutcome.parseFail) trivial trivial

/-! ## Claim C7 — minimum chunk length filter

The source keeps a chunk only when its length is strictly greater than 20
(`result.filter(p => p.length > 20)`, vector.js line 112), so a chunk of
length exactly 20 is discarded; the claim's "emitted iff length ≥ 20" fails
at such a chunk, and the correct boundary is "emitted iff length > 20". -/

/-- Counterexample to C7 as stated: a text that is a single natural
paragraph of exactly 20 characters produces a raw chunk of length 20
(satisfying "length ≥ 20"), yet `splitIntoParagraphs` does not emit it. -/
theorem chunk_min_length_counterexample :
    List.replicate 20 'a' ∈ splitRaw (List.replicate 20 'a') 500 50
    ∧ 20 ≤ (List.replicate 20 'a').length
    ∧ List.replicate 20 'a' ∉ splitIntoParagraphs (List.replicate 20 'a') 500 50 := by
  decide

/-- Claim C7 as amended: a resulting chunk is emitted iff its length is
strictly greater than 20 (so every emitted chunk has length ≥ 21, and in
particular ≥ 20); `splitIntoParagraphs` is exactly the raw chunk list with
the chunks of length ≤ 20 discarded. -/
theorem chunk_min_length_filter (text : List Char) (maxLength overlap : Nat) :
    (∀ c ∈ splitIntoParagraphs text maxLength overlap,
      c ∈ splitRaw text maxLength overlap ∧ 20 < c.length)
    ∧ (∀ c ∈ splitRaw text maxLength overlap,
        20 < c.length → c ∈ splitIntoParagraphs text maxLength overlap)
    ∧ splitIntoParagraphs text maxLength overlap
        = (splitRaw text maxLength overlap).filter fun c => 20 < c.length := by
  refine ⟨fun c hc => ?_, fun c hc hlen => ?_, rfl⟩
  · unfold splitIntoParagraphs at hc
    have h1 := List.mem_of_mem_filter hc
    have h2 := List.of_mem_filter hc
    exact ⟨h1, by simpa using h2⟩
  · unfold splitIntoParagraphs
    exact List.mem_filter.mpr ⟨hc, by simpa using hlen⟩

/-- Witness for the amended C7: a 25-character paragraph is emitted and its
length exceeds 20. -/
theorem chunk_min_length_filter_witness :
    List.replicate 25 'a' ∈ splitRaw (List.replicate 25 'a') 500 50
      ∧ 20 < (List.replicate 25 'a').length :=
  (chunk_min_length_filter (List.replicate 25 'a') 500 50).1
    (List.replicate 25 'a') (by decide)

/-! ## Claim C9 — cosine similarity algebra -/

theorem cosineSimilarity_eq (a b : List ℝ) :
    cosineSimilarity a b =
      if a.length ≠ b.length ∨ a.length = 0 then 0
      else if Real.sqrt (dotProduct a a) = 0 ∨ Real.sqrt (dotProduct b b) = 0 then 0
      else dotProduct a b / (Real.sqrt (dotProduct a a) * Real.sqrt (dotProduct b b)) := rfl

theorem dotProduct_comm (a b : List ℝ) : dotProduct a b = dotProduct b a := by
  induction a generalizing b with
  | nil => cases b <;> rfl
  | cons x xs ih =>
    cases b with
    | nil => rfl
    | cons y ys =>
      unfold dotProduct
      rw [ih, mul_comm]

theorem dotProduct_self_nonneg (v : List ℝ) : 0 ≤ dotProduct v v := by
  induction v with
  | nil => exact le_refl 0
  | cons x xs ih =>
    unfold dotProduct
    have := mul_self_nonneg x
    linarith

theorem dotProduct_self_pos (v : List ℝ) (x : ℝ) (hx : x ∈ v) (hx0 : x ≠ 0) :
    0 < dotProduct v v := by
  induction v with
  | nil => cases hx
  | cons y ys ih =>
    unfold dotProduct
    have hys := dotProduct_self_nonneg ys
    rcases List.mem_cons.mp hx with h | h
    · subst h
      have : 0 < x * x := mul_self_pos.mpr hx0
      linarith
    · have := ih h
      have := mul_self_nonneg y
      linarith

theorem dotProduct_self_zero (v : List ℝ) (h : ∀ x ∈ v, x = 0) : dotProduct v v = 0 := by
  induction v with
  | nil => rfl
  | cons x xs ih =>
    unfold dotProduct
    rw [h x (List.mem_cons_self x xs), ih fun y hy => h y (List.mem_cons_of_mem x hy)]
    ring

/-- Claim C9: `cosineSimilarity(v, v) = 1` for every vector with a non-zero
entry; `cosineSimilarity` is symmetric; and it returns exactly 0 (not an
error — it is a total function) when either vector is empty, when the
lengths mismatch, or when either vector has zero norm (all entries zero). -/
theorem cosine_similarity_algebra :
    (∀ v : List ℝ, (∃ x ∈ v, x ≠ 0) → cosineSimilarity v v = 1)
    ∧ (∀ a b : List ℝ, cosineSimilarity a b = cosineSimilarity b a)
    ∧ (∀ b : List ℝ, cosineSimilarity [] b = 0)
    ∧ (∀ a : List ℝ, cosineSimilarity a [] = 0)
    ∧ (∀ a b : List ℝ, a.length ≠ b.length → cosineSimilarity a b = 0)
    ∧ (∀ a b : List ℝ, (∀ x ∈ a, x = 0) → cosineSimilarity a b = 0)
    ∧ (∀ a b : List ℝ, (∀ x ∈ b, x = 0) → cosineSimilarity a b = 0) := by
  have hmismatch : ∀ a b : List ℝ, a.length ≠ b.length → cosineSimilarity a b = 0 := by
    intro a b h
    rw [cosineSimilarity_eq, if_pos (Or.inl h)]
  have hzero : ∀ a b : List ℝ, (∀ x ∈ a, x = 0) → cosineSimilarity a b = 0 := by
    intro a b h
    rw [cosineSimilarity_eq]
    by_cases hg : a.length ≠ b.length ∨ a.length = 0
    · rw [if_pos hg]
    · rw [if_neg hg]
      have hs : Real.sqrt (dotProduct a a) = 0 := by
        rw [dotProduct_self_zero a h, Real.sqrt_zero]
      rw [if_pos (Or.inl hs)]
  have hsymm : ∀ a b : List ℝ, cosineSimilarity a b = cosineSimilarity b a := by
    intro a b
    rw [cosineSimilarity_eq, cosineSimilarity_eq]
    by_cases hlen : a.length = b.length
    · by_cases hnil : a.length = 0
      · rw [if_pos (Or.inr hnil)]
        rw [if_pos (Or.inr (show b.length = 0 by omega))]
      · rw [if_neg (show ¬(a.length ≠ b.length ∨ a.length = 0) by omega)]
        rw [if_neg (show ¬(b.length ≠ a.length ∨ b.length = 0) by omega)]
        refine if_congr or_comm rfl ?_
        rw [dotProduct_comm a b,
          mul_comm (Real.sqrt (dotProduct a a)) (Real.sqrt (dotProduct b b))]
    · rw [if_pos (Or.inl hlen)]
      rw [if_pos (Or.inl (show b.length ≠ a.length by omega))]
  refine ⟨fun v hv => ?_, hsymm, fun b => ?_, fun a => ?_, hmismatch, hzero,
    fun a b h => (hsymm a b).trans (hzero b a h)⟩
  · obtain ⟨x, hx, hx0⟩ := hv
    rw [cosineSimilarity_eq]
    have hpos := dotProduct_self_pos v x hx hx0
    have hne : v.length ≠ 0 := by
      intro h
      rw [List.length_eq_zero] at h
      subst h
      cases hx
    rw [if_neg (by omega)]
    have hsq : Real.sqrt (dotProduct v v) ≠ 0 := by positivity
    rw [if_neg (by tauto), Real.mul_self_sqrt (le_of_lt hpos)]
    exact div_self (ne_of_gt hpos)
  · rw [cosineSimilarity_eq, if_pos (Or.inr List.length_nil)]
  · rw [cosineSimilarity_eq]
    by_cases h : a.length ≠ ([] : List ℝ).length
    · rw [if_pos (Or.inl h)]
    · rw [if_pos (Or.inr (by simpa using h))]

/-- Witness for C9 at concrete vectors: self-similarity of `[1]` is 1,
symmetry at `([1], [2])`, zero for the empty vector, a mismatched pair, and
the zero vector. -/
theorem cosine_similarity_algebra_witness :
    cosineSimilarity [(1 : ℝ)] [(1 : ℝ)] = 1
    ∧ cosineSimilarity [(1 : ℝ)] [(2 : ℝ)] = cosineSimilarity [(2 : ℝ)] [(1 : ℝ)]
    ∧ cosineSimilarity [] [(1 : ℝ)] = 0
    ∧ cosineSimilarity [(1 : ℝ), 0] [(1 : ℝ)] = 0
    ∧ cosineSimilarity [(0 : ℝ)] [(1 : ℝ)] = 0 :=
  ⟨cosine_similarity_algebra.1 [(1 : ℝ)] ⟨1, List.mem_singleton_self 1, one_ne_zero⟩,
   cosine_similarity_algebra.2.1 [(1 : ℝ)] [(2 : ℝ)],
   cosine_similarity_algebra.2.2.1 [(1 : ℝ)],
   cosine_similarity_algebra.2.2.2.2.1 [(1 : ℝ), 0] [(1 : ℝ)] (by simp),
   cosine_similarity_algebra.2.2.2.2.2.1 [(0 : ℝ)] [(1 : ℝ)] (by simp)⟩

/-! ## Claims C1 and C10 — top-k search -/

theorem descBySimilarity_trans (a b c : ScoredRecord)
    (hab : descBySimilarity a b) (hbc : descBySimilarity b c) : descBySimilarity a c := by
  unfold descBySimilarity at *
  rw [decide_eq_true_eq] at *
  exact le_trans hbc hab

theorem descBySimilarity_total (a b : ScoredRecord) :
    descBySimilarity a b || descBySimilarity b a := by
  unfold descBySimilarity
  rcases le_total a.similarity b.similarity with h | h <;> simp [h]

/-- Claim C1: with a non-empty query vector and a non-empty candidate list,
`search` returns the scored, threshold-filtered candidates, stably sorted
descending by similarity and truncated to the first `topK`: the result is
sorted descending, contains no entry below the threshold, has at most
`topK` entries, candidates with equal similarity keep their original
relative order through the sort, and the defaults are `topK = 5` and
`threshold = 0.3`. -/
theorem search_ranking (q : List ℝ) (embs : List EmbeddingRecord) (topK : Nat)
    (threshold : ℝ) (hq : q ≠ []) (hembs : embs ≠ []) :
    List.Pairwise (fun a b : ScoredRecord => b.similarity ≤ a.similarity)
        (search (some q) (some embs) topK threshold)
    ∧ (∀ r ∈ search (some q) (some embs) topK threshold, threshold ≤ r.similarity)
    ∧ (search (some q) (some embs) topK threshold).length ≤ topK
    ∧ search (some q) (some embs) topK threshold
        = ((scoredCandidates q embs threshold).mergeSort descBySimilarity).take topK
    ∧ (∀ a b : ScoredRecord, a.similarity = b.similarity →
        List.Sublist [a, b] (scoredCandidates q embs threshold) →
        List.Sublist [a, b] ((scoredCandidates q embs threshold).mergeSort descBySimilarity))
    ∧ search (some q) (some embs) = search (some q) (some embs) 5 (3 / 10) := by
  have hguard : ¬(q.length = 0 ∨ embs.length = 0) := by
    simp only [List.length_eq_zero]
    tauto
  have heq : search (some q) (some embs) topK threshold
      = ((scoredCandidates q embs threshold).mergeSort descBySimilarity).take topK := by
    unfold search
    dsimp only
    rw [if_neg hguard]
  have hsorted := @List.sorted_mergeSort ScoredRecord descBySimilarity
    (fun a b c => descBySimilarity_trans a b c)
    descBySimilarity_total (scoredCandidates q embs threshold)
  refine ⟨?_, fun r hr => ?_, ?_, heq, fun a b hsim hsub => ?_, rfl⟩
  · rw [heq]
    have := hsorted.sublist (List.take_sublist topK _)
    exact this.imp fun h => by
      have := of_decide_eq_true h
      exact this
  · rw [heq] at hr
    have h1 : r ∈ (scoredCandidates q embs threshold).mergeSort descBySimilarity :=
      List.mem_of_mem_take hr
    have h2 : r ∈ scoredCandidates q embs threshold := List.mem_mergeSort.mp h1
    unfold scoredCandidates at h2
    have := List.of_mem_filter h2
    rwa [decide_eq_true_eq] at this
  · rw [heq]
    exact List.length_take_le topK _
  · refine List.pair_sublist_mergeSort
      (fun a b c => descBySimilarity_trans a b c) descBySimilarity_total ?_ hsub
    unfold descBySimilarity
    rw [hsim]
    exact decide_eq_true le_rfl

/-- Witness for C1 at a concrete query and candidate list. -/
theorem search_ranking_witness :
    (search (some [(1 : ℝ)])
        (some [EmbeddingRecord.mk 0 0 0 [] (some [(1 : ℝ)])]) 3 0).length ≤ 3 :=
  (search_ranking [(1 : ℝ)] [EmbeddingRecord.mk 0 0 0 [] (some [(1 : ℝ)])] 3 0
    (by simp) (by simp)).2.2.1

/-- Claim C10: `search` returns the empty sequence whenever the query
vector is absent (`none`) or empty or the candidate list is absent or
empty; and a candidate whose `vector` field is absent or empty never
appears in the results, for every threshold (including thresholds that its
fallback similarity 0 would pass). -/
theorem search_degenerate_inputs :
    (∀ (embs : Option (List EmbeddingRecord)) (topK : Nat) (threshold : ℝ),
      search none embs topK threshold = [])
    ∧ (∀ (q : Option (List ℝ)) (topK : Nat) (threshold : ℝ),
        search q none topK threshold = [])
    ∧ (∀ (embs : List EmbeddingRecord) (topK : Nat) (threshold : ℝ),
        search (some []) (some embs) topK threshold = [])
    ∧ (∀ (q : List ℝ) (topK : Nat) (threshold : ℝ),
        search (some q) (some []) topK threshold = [])
    ∧ (∀ (q : List ℝ) (embs : List EmbeddingRecord) (topK : Nat) (threshold : ℝ),
        ∀ r ∈ search (some q) (some embs) topK threshold,
          ∃ v, r.record.vector = some v ∧ v ≠ []) := by
  refine ⟨fun embs topK threshold => ?_, fun q topK threshold => ?_,
    fun embs topK threshold => ?_, fun q topK threshold => ?_,
    fun q embs topK threshold r hr => ?_⟩
  · rfl
  · cases q <;> rfl
  · unfold search
    dsimp only
    rw [if_pos (Or.inl List.length_nil)]
  · unfold search
    dsimp only
    rw [if_pos (Or.inr List.length_nil)]
  · unfold search at hr
    dsimp only at hr
    by_cases hguard : q.length = 0 ∨ embs.length = 0
    · rw [if_pos hguard] at hr
      cases hr
    · rw [if_neg hguard] at hr
      have h1 := List.mem_mergeSort.mp (List.mem_of_mem_take hr)
      unfold scoredCandidates at h1
      have h2 := List.mem_of_mem_filter h1
      obtain ⟨e, he, hmk⟩ := List.mem_map.mp h2
      have hvec := List.of_mem_filter he
      unfold hasVector at hvec
      rcases hv : e.vector with - | v
      · rw [hv] at hvec
        cases hvec
      · rw [hv] at hvec
        refine ⟨v, ?_, ?_⟩
        · rw [← hmk]
          exact hv
        · intro hnil
          subst hnil
          simp at hvec

theorem search_singleton_eval :
    search (some [(1 : ℝ)])
        (some [EmbeddingRecord.mk 0 0 0 [] (some [(1 : ℝ)])]) 5 0
      = [ScoredRecord.mk (EmbeddingRecord.mk 0 0 0 [] (some [(1 : ℝ)])) 1] := by
  have hcos : cosineSimilarity [(1 : ℝ)] [(1 : ℝ)] = 1 := by
    rw [cosineSimilarity_eq]
    rw [if_neg (by simp)]
    have hdot : dotProduct [(1 : ℝ)] [(1 : ℝ)] = 1 := by
      unfold dotProduct
      unfold dotProduct
      ring
    rw [hdot, Real.sqrt_one, if_neg (by norm_num)]
    norm_num
  unfold search
  dsimp only
  rw [if_neg (by simp)]
  unfold scoredCandidates hasVector
  simp only [List.filter_cons, List.filter_nil, List.map_cons, List.map_nil]
  norm_num
  rw [hcos, List.filter_singleton]
  dsimp only
  rw [decide_eq_true (by norm_num : (0 : ℝ) ≤ 1), Bool.cond_true, List.mergeSort_singleton]
  rfl

/-- Witness for C10: in a concrete search whose single result is the
candidate with vector `[1]`, that result indeed carries a present,
non-empty vector. -/
theorem search_degenerate_inputs_witness :
    ∃ v, (ScoredRecord.mk (EmbeddingRecord.mk 0 0 0 [] (some [(1 : ℝ)])) 1).record.vector
        = some v ∧ v ≠ [] :=
  search_degenerate_inputs.2.2.2.2 [(1 : ℝ)]
    [EmbeddingRecord.mk 0 0 0 [] (some [(1 : ℝ)])] 5 0
    (ScoredRecord.mk (EmbeddingRecord.mk 0 0 0 [] (some [(1 : ℝ)])) 1)
    (by rw [search_singleton_eval]; exact List.mem_singleton_self _)

/-! ## Claim C8 — chunk coverage of the input text -/

theorem splitBlankOffAux_snd (fuel : Nat) :
    ∀ (t : List Char) (segStart : Nat) (acc : List Char),
      (splitBlankOffAux fuel t segStart acc).map (fun p => p.2) = splitBlankAux fuel t acc := by
  induction fuel with
  | zero => intro t s acc; rfl
  | succ f ih =>
    intro t s acc
    unfold splitBlankOffAux splitBlankAux
    split
    · rfl
    · simp only [List.map_cons, ih]
    · apply ih

theorem jsSplitBlankOff_snd (t : List Char) :
    (jsSplitBlankOff t).map (fun p => p.2) = jsSplitBlank t :=
  splitBlankOffAux_snd t.length t 0 []

theorem chunkEnd_lower (para : List Char) (maxLength start : Nat) (hm : 0 < maxLength)
    (hs : start < para.length) :
    start + maxLength / 2 + 1 ≤ chunkEnd para maxLength start := by
  unfold chunkEnd
  dsimp only
  split
  · split
    · rename_i hbp
      omega
    · omega
  · omega

theorem chunkLoopSpans_cover (para : List Char) (maxLength overlap : Nat)
    (hm : 0 < maxLength) (ho : 2 * overlap ≤ maxLength) :
    ∀ (fuel start : Nat), para.length - start ≤ fuel →
      ∀ i, start ≤ i → i < para.length →
        ∃ sp ∈ chunkLoopSpans para maxLength overlap start fuel, sp.1 ≤ i ∧ i < sp.2 := by
  intro fuel
  induction fuel with
  | zero =>
    intro start hfuel i hi1 hi2
    omega
  | succ f ih =>
    intro start hfuel i hi1 hi2
    have hstart : start < para.length := by omega
    unfold chunkLoopSpans
    rw [if_pos hstart]
    by_cases hcase : i < chunkEnd para maxLength start
    · exact ⟨(start, chunkEnd para maxLength start), List.mem_cons_self _ _, hi1, hcase⟩
    · have hlow := chunkEnd_lower para maxLength start hm hstart
      obtain ⟨sp, hsp, h1, h2⟩ :=
        ih (chunkEnd para maxLength start - overlap) (by omega) i (by omega) hi2
      exact ⟨sp, List.mem_cons_of_mem _ hsp, h1, h2⟩

theorem chunkLoopSpans_head_fst (para : List Char) (maxLength overlap : Nat) :
    ∀ (fuel start : Nat) (sp : Nat × Nat),
      (chunkLoopSpans para maxLength overlap start fuel).head? = some sp → sp.1 = start := by
  intro fuel start sp h
  cases fuel with
  | zero => cases h
  | succ f =>
    unfold chunkLoopSpans at h
    by_cases hs : start < para.length
    · rw [if_pos hs] at h
      rw [List.head?_cons, Option.some_inj] at h
      rw [← h]
    · rw [if_neg hs] at h
      cases h

theorem chunkLoopSpans_chain (para : List Char) (maxLength overlap : Nat) :
    ∀ (fuel start : Nat),
      List.Chain' (fun a b : Nat × Nat => b.1 = a.2 - overlap)
        (chunkLoopSpans para maxLength overlap start fuel) := by
  intro fuel
  induction fuel with
  | zero => intro start; exact List.chain'_nil
  | succ f ih =>
    intro start
    unfold chunkLoopSpans
    by_cases hs : start < para.length
    · rw [if_pos hs]
      refine List.chain'_cons'.mpr ⟨fun b hb => ?_, ih _⟩
      exact chunkLoopSpans_head_fst para maxLength overlap f _ b hb
    · rw [if_neg hs]
      exact List.chain'_nil

theorem chunkLoop_eq_spans (para : List Char) (maxLength overlap : Nat) :
    ∀ (fuel start : Nat),
      chunkLoop para maxLength overlap start fuel
        = (chunkLoopSpans para maxLength overlap start fuel).map fun sp =>
            jsTrim (jsSlice para (sp.1 : Int) (some (sp.2 : Int))) := by
  intro fuel
  induction fuel with
  | zero => intro start; rfl
  | succ f ih =>
    intro start
    unfold chunkLoop chunkLoopSpans
    by_cases hs : start < para.length
    · rw [if_pos hs, if_pos hs]
      dsimp only
      rw [List.map_cons, ih]
    · rw [if_neg hs, if_neg hs]
      rfl

theorem map_filter_comp (l : List α) (f : α → β) (p : β → Bool) :
    (l.filter fun x => p (f x)).map f = (l.map f).filter p := by
  induction l with
  | nil => rfl
  | cons x xs ih =>
    simp only [List.filter_cons, List.map_cons]
    cases p (f x) <;> simp [ih]

theorem flatMap_map_comp (l : List α) (f : α → β) (g : β → List γ) :
    (l.map f).flatMap g = l.flatMap fun x => g (f x) := by
  induction l with
  | nil => rfl
  | cons x xs ih => simp [ih]


/-- Every chunk `splitIntoParagraphs` returns is the trimmed slice of its
recorded source span: projecting the chunks out of the span-instrumented
pipeline yields exactly `splitIntoParagraphs`. -/
theorem splitSpans_pieces (text : List Char) (maxLength overlap : Nat) :
    (splitSpans text maxLength overlap).map (fun sp => sp.2)
      = splitIntoParagraphs text maxLength overlap := by
  unfold splitSpans splitIntoParagraphs splitRaw
  by_cases ht : text = []
  · rw [if_pos ht, if_pos ht]
    rfl
  · rw [if_neg ht, if_neg ht]
    rw [map_filter_comp _ (fun sp : (Nat × Nat) × List Char => sp.2) (fun c => decide (20 < c.length))]
    refine congrArg (List.filter _) ?_
    rw [List.map_flatMap]
    rw [← jsSplitBlankOff_snd text,
      ← map_filter_comp _ (fun p : Nat × List Char => p.2) (fun p => !(jsTrim p).isEmpty),
      flatMap_map_comp]
    refine congrArg _ (funext fun op => ?_)
    dsimp only
    split
    · rfl
    · rw [List.map_map, chunkLoop_eq_spans]
      rfl

/-- Counterexample to C8 as stated: the blank-line separators between
natural paragraphs are covered by no chunk's source span, and a separator
run may be arbitrarily long.  For the text `'a'*25 ++ '\n'*60 ++ 'b'*25`
the chunks' source spans are `[0,25)` and `[85,110)`, leaving the
60-character window `[25,85)` — longer than the overlap 50 — entirely
uncovered. -/
theorem chunk_coverage_counterexample :
    ¬ coverageClaimSpec
        (List.replicate 25 'a' ++ List.replicate 60 '\n' ++ List.replicate 25 'b') 500 50 := by
  intro h
  obtain ⟨p, hp1, hp2, sp, hsp, hs1, hs2⟩ := h 25 85 (by decide) (by decide)
  have hspans : (splitSpans
      (List.replicate 25 'a' ++ List.replicate 60 '\n' ++ List.replicate 25 'b') 500 50).map
        (fun sp => sp.1) = [(0, 25), (85, 110)] := by decide
  have hm := List.mem_map_of_mem (fun sp : (Nat × Nat) × List Char => sp.1) hsp
  rw [hspans] at hm
  simp only [List.mem_cons, List.not_mem_nil, or_false] at hm
  rcases hm with h' | h' <;> rw [h'] at hs1 hs2 <;> simp only at hs1 hs2 <;> omega

/-- Claim C8 as amended: full-text coverage holds only within each natural
paragraph — the blank-line separator runs between paragraphs, trimmed
whitespace, and chunks discarded as too short are not covered, and a
separator run longer than `overlap` is an uncovered gap longer than
`overlap` (see the counterexample).  Within a paragraph, for `maxLength ≥ 1`
and `2·overlap ≤ maxLength` (the source loop need not terminate otherwise;
the defaults 500/50 satisfy it): the pre-filter piece spans cover every
position of the paragraph, each span after the first starts exactly
`overlap` characters before the previous cut, and the emitted pieces are
exactly the trimmed slices of these spans. -/
theorem chunk_spans_coverage (para : List Char) (maxLength overlap : Nat)
    (hm : 0 < maxLength) (ho : 2 * overlap ≤ maxLength) :
    (∀ i, i < para.length →
      ∃ sp ∈ chunkLoopSpans para maxLength overlap 0 (para.length + 1),
        sp.1 ≤ i ∧ i < sp.2)
    ∧ List.Chain' (fun a b : Nat × Nat => b.1 = a.2 - overlap)
        (chunkLoopSpans para maxLength overlap 0 (para.length + 1))
    ∧ chunkLoop para maxLength overlap 0 (para.length + 1)
        = (chunkLoopSpans para maxLength overlap 0 (para.length + 1)).map
            (fun sp => jsTrim (jsSlice para (sp.1 : Int) (some (sp.2 : Int))))
    ∧ (∀ text : List Char,
        (splitSpans text maxLength overlap).map (fun sp => sp.2)
          = splitIntoParagraphs text maxLength overlap) :=
  ⟨fun i hi => chunkLoopSpans_cover para maxLength overlap hm ho (para.length + 1) 0
      (by omega) i (Nat.zero_le i) hi,
   chunkLoopSpans_chain para maxLength overlap (para.length + 1) 0,
   chunkLoop_eq_spans para maxLength overlap (para.length + 1) 0,
   fun text => splitSpans_pieces text maxLength overlap⟩

/-- Witness for the amended C8: in a 30-character paragraph chunked with
`maxLength = 10`, `overlap = 5`, position 7 is covered by some piece span. -/
theorem chunk_spans_coverage_witness :
    ∃ sp ∈ chunkLoopSpans (List.replicate 30 'a') 10 5 0 31, sp.1 ≤ 7 ∧ 7 < sp.2 :=
  (chunk_spans_coverage (List.replicate 30 'a') 10 5 (by norm_num) (by norm_num)).1 7
    (by simp)
